import Mathlib

/-!
Verification development for the `topcodes` Rust library (file `src/scanner.rs`).

The scanner's state and operations are embedded shallowly:
* machine integers become `Nat`/`Int` with explicit wrapping where the source
  can wrap (`u32` addition, `as u32` casts);
* `isize` division (which truncates toward zero in Rust) becomes `Int.tdiv`;
* `isize & 0xffffff` on a two's-complement machine equals the Euclidean
  remainder modulo `2^24`, i.e. Lean's `%` on `Int`;
* the mutable pixel buffer `Vec<u32>` becomes a `List Nat` threaded through
  the pass; `self.data[k] = v` becomes `List.set k v` (in-bounds in every
  reachable state; `List.set` is a no-op out of bounds where Rust would panic);
* the caller-supplied pixel source plus `decode_rgb` callback is a pure
  function `Nat → Nat × Nat × Nat` from a flat index to an (R, G, B) triple.

`topcode.rs` and `candidate.rs` are not among the provided sources; the
`TopCode` and `Candidate` records and `TopCode`'s methods are modelled from
the spec where needed (each such definition carries a `Modelled from the
spec:` comment), and `TopCode::decode` is abstracted as a function parameter,
so theorems about `scan` hold for every decoder, in particular the library's.
-/

/-- Modelled from the spec: `candidate.rs` is not among the provided sources.
"A pair (x, y) of integer pixel coordinates identifying a possible bullseye
center." -/
structure Candidate where
  x : Nat
  y : Nat
  deriving DecidableEq, Repr

/-- Modelled from the spec: `topcode.rs` is not among the provided sources.
A decoded marker with an optional integer `code`, floating-point `unit`,
`orientation` and center `x`, `y` (floats are modelled as rationals), and the
eight `core` samples. -/
structure TopCode where
  code : Option Nat
  unit : Rat
  orientation : Rat
  x : Rat
  y : Rat
  core : List Nat
  deriving DecidableEq, Repr

/-- Modelled from the spec: "`is_valid()`: true iff `code` is present." -/
def TopCode.is_valid (t : TopCode) : Bool := t.code.isSome

/-- Modelled from the spec: "`in_bullseye(px, py)`: true iff the point
(px, py) lies within the outer bullseye radius (`unit * 3`) of the marker
center." Stated on squared distances to stay in `Rat`. -/
def TopCode.in_bullseye (t : TopCode) (px py : Rat) : Bool :=
  decide ((px - t.x) ^ 2 + (py - t.y) ^ 2 ≤ (t.unit * 3) ^ 2)

/-- The scanner (`struct Scanner`, scanner.rs): image dimensions, the packed
binary pixel buffer (`Vec<u32>`, one word per pixel), and the maximum unit
width. -/
structure Scanner where
  width : Nat
  height : Nat
  data : List Nat
  max_unit : Nat
  deriving DecidableEq, Repr

/-- `Scanner::new` (scanner.rs:34): zeroed buffer of `width * height` words,
`max_unit` defaulted to `DEFAULT_MAX_UNIT = 80`. -/
def Scanner.new (width height : Nat) : Scanner :=
  ⟨width, height, List.replicate (width * height) 0, 80⟩

/-- `Scanner::set_max_code_diameter` (scanner.rs:67-70): the source computes
`(diameter as f64 / 8.0).ceil() as usize`.  For `diameter ≤ 2^53` the `f64`
conversion is exact and the division by the power of two is exact, so the
result is exactly `⌈diameter / 8⌉ = (diameter + 7) / 8` in `Nat`. -/
def Scanner.set_max_code_diameter (s : Scanner) (diameter : Nat) : Scanner :=
  { s with max_unit := (diameter + 7) / 8 }

/-- `Scanner::get_bw_3x3` (scanner.rs:92-110): majority of the 3x3 window of
binary bits (the top byte of each buffer word) around (x, y); pixels within 1
of the border yield 0.  The border test `x >= self.width - 1` uses `usize`
subtraction, embedded as truncated `Nat` subtraction (for `width = 0` the
source would panic in debug builds; no claim depends on that case).  The
source accumulates the nine window bits with two nested loops; the sum is
written out termwise here, in the same row-major order. -/
def Scanner.get_bw_3x3 (s : Scanner) (x y : Nat) : Nat :=
  if x < 1 ∨ s.width - 1 ≤ x ∨ y < 1 ∨ s.height - 1 ≤ y then 0
  else
    let bit := fun (i j : Nat) => (s.data.getD (j * s.width + i) 0) >>> 24 &&& 1
    let sum :=
      bit (x - 1) (y - 1) + bit x (y - 1) + bit (x + 1) (y - 1) +
      bit (x - 1) y + bit x y + bit (x + 1) y +
      bit (x - 1) (y + 1) + bit x (y + 1) + bit (x + 1) (y + 1)
    if 5 ≤ sum then 1 else 0

/-- The intensity computation of the threshold pass (scanner.rs:137-138):
`let (r, g, b) = decode_rgb(...); let a = (r + g + b) as isize / 3`.
The three channels are `u32`, so their sum wraps modulo `2^32` (release
semantics; a debug build would panic instead of wrapping), and the `isize`
division of the nonnegative sum by 3 is ordinary `Nat` division. -/
def intensity (rgb : Nat × Nat × Nat) : Int :=
  (((rgb.1 % 4294967296 + rgb.2.1 % 4294967296 + rgb.2.2 % 4294967296) % 4294967296) / 3 : Nat)

/-- `enum UnitLevel` (scanner.rs:10-15): state of the per-row bullseye
cross-section state machine. -/
inductive UnitLevel
  | WhiteRegion
  | BlackRegion
  | WhiteRegionSecond
  | BlackRegionSecond
  deriving DecidableEq, Repr

/-- The per-row mutable variables of the threshold pass (scanner.rs:127-130):
the state-machine level and the three `isize` run-length counters. -/
structure RowState where
  level : UnitLevel
  b1 : Int
  b2 : Int
  w1 : Int
  deriving DecidableEq, Repr

/-- `let mut level = UnitLevel::WhiteRegion; let mut b1 = 0; let mut b2 = 0;
let mut w1 = 0;` at the start of every row (scanner.rs:127-130). -/
def rowInit : RowState := ⟨.WhiteRegion, 0, 0, 0⟩

/-- The state threaded through the whole pass: the pixel buffer, the running
sum (an `isize` in the source), and the accumulated candidates. -/
structure PassState where
  data : List Nat
  sum : Int
  candidates : List Candidate
  deriving DecidableEq, Repr

/-- The ring-detection state machine advance, the `match level` block of
`Scanner::threshold` (scanner.rs:161-213), for one binarized pixel `a` at
flat index `k` of row `j`.  In the candidate push, `b2 as usize` and
`w1 as usize` are embedded as `Int.toNat`: under the guard `2 ≤ b2` and
`|b1 + b2 - w1| ≤ w1` (hence `0 ≤ w1`) both counters are nonnegative, so the
`usize` casts are value-preserving; `>> 1` on `usize` is `>>> 1` on `Nat`;
the `usize` subtraction `k - dk` is truncated `Nat` subtraction (it cannot
underflow in a reachable state, where the b1/w1/b2 runs lie in row `j` before
`k`; Rust would panic in debug builds on underflow). -/
def unitStep (width maxUnit j k : Nat) (a : Int) (rs : RowState)
    (cands : List Candidate) : RowState × List Candidate :=
  match rs.level with
  | .WhiteRegion =>
      if a = 0 then (⟨.BlackRegion, 1, 0, 0⟩, cands) else (rs, cands)
  | .BlackRegion =>
      if a = 0 then ({ rs with b1 := rs.b1 + 1 }, cands)
      else ({ rs with level := .WhiteRegionSecond, w1 := 1 }, cands)
  | .WhiteRegionSecond =>
      if a = 0 then ({ rs with level := .BlackRegionSecond, b2 := 1 }, cands)
      else ({ rs with w1 := rs.w1 + 1 }, cands)
  | .BlackRegionSecond =>
      if a = 0 then ({ rs with b2 := rs.b2 + 1 }, cands)
      else
        let maxU : Int := (maxUnit : Int)
        let cands' :=
          if 2 ≤ rs.b1 ∧ 2 ≤ rs.b2 ∧ rs.b1 ≤ maxU ∧ rs.b2 ≤ maxU ∧
              rs.w1 ≤ maxU + maxU ∧
              |rs.b1 + rs.b2 - rs.w1| ≤ rs.b1 + rs.b2 ∧
              |rs.b1 + rs.b2 - rs.w1| ≤ rs.w1 ∧
              |rs.b1 - rs.b2| ≤ rs.b1 ∧ |rs.b1 - rs.b2| ≤ rs.b2 then
            let dk : Nat := 1 + rs.b2.toNat + (rs.w1.toNat >>> 1)
            let dk2 : Nat := if j % 2 = 0 then k - dk else k + dk
            cands ++ [⟨dk2 % width, j⟩]
          else cands
        (⟨.WhiteRegionSecond, rs.b2, 0, 1⟩, cands')

/-- The running-sum update at pixel `k` (scanner.rs:140-141):
`sum += a - (sum / s)` with `s = 32` and truncating `isize` division. -/
def pixelSum (img : Nat → Nat × Nat × Nat) (k : Nat) (st : PassState) : Int :=
  st.sum + (intensity (img k) - st.sum.tdiv 32)

/-- The previous-row read of the threshold (scanner.rs:145):
`self.data[k - self.width] as isize & 0xffffff`.  The buffer word is a `u32`,
so the value is nonnegative and the mask is `Nat` bitwise-and. -/
def prevRowWord (width k : Nat) (st : PassState) : Nat :=
  st.data.getD (k - width) 0 &&& 0xffffff

/-- The threshold at pixel `k` (scanner.rs:143-148): average the updated sum
with the previous-row sum when `useAbove`, else use the sum alone. -/
def pixelThreshold (width : Nat) (img : Nat → Nat × Nat × Nat) (useAbove : Bool)
    (k : Nat) (st : PassState) : Int :=
  if useAbove then
    (pixelSum img k st + (prevRowWord width k st : Int)).tdiv (2 * 32)
  else (pixelSum img k st).tdiv 32

/-- The binarized pixel (scanner.rs:150-155): `a = if (a as f64) <
(threshold as f64 * 0.975) { 0 } else { 1 }`, embedded as the exact rational
comparison `40 * a < 39 * threshold`.  The `f64` literal `0.975` equals
`39/40 - 1/(5 * 2^53)`; for `0 ≤ threshold < 2^40` the rounded product
`threshold * 0.975` differs from the real `threshold * 39/40` by less than
half an ulp and rounds to exactly `threshold * 39/40` whenever that value is
an integer, so the `f64` comparison against the integer `a` agrees with the
exact rational comparison at every integer (`threshold` stays below `2^25`
in any run, far inside that range). -/
def pixelBit (width : Nat) (img : Nat → Nat × Nat × Nat) (useAbove : Bool)
    (k : Nat) (st : PassState) : Int :=
  if 40 * intensity (img k) < 39 * pixelThreshold width img useAbove k st then 0 else 1

/-- The packed word written at index `k` (scanner.rs:157-159):
`((a << 24) + (sum & 0xffffff)) as u32`.  On the `isize` running sum,
`& 0xffffff` is the low-24-bit field of the two's-complement representation,
i.e. Euclidean `sum % 2^24`; the value is below `2^25`, but the `as u32`
cast is kept as `% 2^32`. -/
def pixelWord (width : Nat) (img : Nat → Nat × Nat × Nat) (useAbove : Bool)
    (k : Nat) (st : PassState) : Nat :=
  ((pixelBit width img useAbove k st).toNat <<< 24 + (pixelSum img k st % 16777216).toNat)
    % 4294967296

/-- The per-pixel body of `Scanner::threshold` (scanner.rs:136-213): update
the running sum, binarize against the threshold, write the packed word at
`k`, and advance the state machine.  It is shared by the source-order pass
(`Scanner.threshold`, which passes `useAbove := width ≤ k` as in the source)
and by the spec-order pass (`thresholdSpec`, which passes
`useAbove := 1 ≤ j`, "a previous row exists"). -/
def pixelBody (width maxUnit : Nat) (img : Nat → Nat × Nat × Nat) (useAbove : Bool)
    (j k : Nat) (st : PassState) (rs : RowState) : PassState × RowState :=
  let step := unitStep width maxUnit j k (pixelBit width img useAbove k st) rs st.candidates
  (⟨st.data.set k (pixelWord width img useAbove k st), pixelSum img k st, step.2⟩, step.1)

/-- The inner pixel loop of `Scanner::threshold` (scanner.rs:135-219): `n`
remaining pixels of row `j`, current flat index `k`; after each pixel `k`
moves right on even rows and left on odd rows. -/
def rowLoopSrc (width maxUnit : Nat) (img : Nat → Nat × Nat × Nat) (j : Nat) :
    Nat → Nat → PassState × RowState → PassState × RowState
  | 0, _, x => x
  | n + 1, k, x =>
    let x' := pixelBody width maxUnit img (decide (width ≤ k)) j k x.1 x.2
    rowLoopSrc width maxUnit img j n (if j % 2 = 0 then k + 1 else k - 1) x'

/-- The outer row loop of `Scanner::threshold` (scanner.rs:126-220): `n`
remaining rows, current row `j`; each row resets the state machine and starts
at flat index `(if j even then 0 else width - 1) + j * width`. -/
def rowsLoopSrc (width maxUnit : Nat) (img : Nat → Nat × Nat × Nat) :
    Nat → Nat → PassState → PassState
  | 0, _, st => st
  | n + 1, j, st =>
    let k0 := (if j % 2 = 0 then 0 else width - 1) + j * width
    let x := rowLoopSrc width maxUnit img j width k0 (st, rowInit)
    rowsLoopSrc width maxUnit img n (j + 1) x.1

/-- `Scanner::threshold` (scanner.rs:117-223): run the adaptive-threshold
sweep over all rows starting from `sum = 128`, returning the updated scanner
and the candidate list. -/
def Scanner.threshold (s : Scanner) (img : Nat → Nat × Nat × Nat) :
    Scanner × List Candidate :=
  let st := rowsLoopSrc s.width s.max_unit img s.height 0 ⟨s.data, 128, []⟩
  ({ s with data := st.data }, st.candidates)

/-- `Scanner::overlaps` (scanner.rs:242-250): whether (x, y) lies in the
bullseye of any already-accepted marker.  (`&self` is unused by the body.) -/
def overlaps (spots : List TopCode) (x y : Nat) : Bool :=
  spots.any fun top => top.in_bullseye (x : Rat) (y : Rat)

/-- The body of the `Scanner::find_codes` loop (scanner.rs:229-237): skip a
candidate that overlaps an accepted marker, otherwise decode it and keep the
marker if it is valid.  `decode` abstracts `TopCode::default()` followed by
`TopCode::decode(self, c.x, c.y)` (topcode.rs, not among the provided
sources): a function from the scanner and the candidate coordinates to the
resulting marker. -/
def findStep (s : Scanner) (decode : Scanner → Nat → Nat → TopCode)
    (spots : List TopCode) (c : Candidate) : List TopCode :=
  if overlaps spots c.x c.y then spots
  else
    let spot := decode s c.x c.y
    if spot.is_valid then spots ++ [spot] else spots

/-- `Scanner::find_codes` (scanner.rs:226-240): fold the candidate list in
discovery order, starting from no accepted markers. -/
def Scanner.find_codes (s : Scanner) (decode : Scanner → Nat → Nat → TopCode)
    (candidates : List Candidate) : List TopCode :=
  candidates.foldl (findStep s decode) []

/-- `Scanner::scan` (scanner.rs:52-59): threshold, then decode the
candidates; returns the mutated scanner together with the marker list. -/
def Scanner.scan (s : Scanner) (img : Nat → Nat × Nat × Nat)
    (decode : Scanner → Nat → Nat → TopCode) : Scanner × List TopCode :=
  let tc := s.threshold img
  (tc.1, tc.1.find_codes decode tc.2)

/-- The border test of the `Scanner::dist` loop (scanner.rs:260), verbatim
from the source including the asymmetry flagged by the spec: the height bound
`j >= self.height` has no `- 1`, unlike the width bound. -/
def rayExit (s : Scanner) (i j : Int) : Prop :=
  i ≤ 1 ∨ (s.width : Int) - 1 ≤ i ∨ j ≤ 1 ∨ (s.height : Int) ≤ j

instance (s : Scanner) (i j : Int) : Decidable (rayExit s i j) := by
  unfold rayExit; infer_instance

/-- The color-change test of the `Scanner::dist` loop (scanner.rs:264-265):
`start + sample == 1`. -/
def rayDiffer (s : Scanner) (start : Nat) (i j : Int) : Prop :=
  start + s.get_bw_3x3 i.toNat j.toNat = 1

instance (s : Scanner) (start : Nat) (i j : Int) : Decidable (rayDiffer s start i j) := by
  unfold rayDiffer; infer_instance

/-- `Scanner::dist` (scanner.rs:253-276), fuel-indexed loop: from position
(i, j), repeatedly test the border condition, then the color-change
condition, then step by (dx, dy).  `none` means the fuel ran out, which
models the source loop not having terminated within that many iterations. -/
def distAux (s : Scanner) (start : Nat) (x y : Nat) (dx dy : Int) :
    Nat → Int → Int → Option Int
  | 0, _, _ => none
  | fuel + 1, i, j =>
    if rayExit s i j then some (-1)
    else if rayDiffer s start i j then
      some (((i - (x : Int)).natAbs : Int) + ((j - (y : Int)).natAbs : Int))
    else distAux s start x y dx dy fuel (i + dx) (j + dy)

/-- `Scanner::dist` (scanner.rs:253-276): start from (x + dx, y + dy) and run
the loop.  The fuel `width + height + x + y + 2` is sufficient whenever
(dx, dy) ≠ (0, 0) (the ray then reaches the border test in at most
`max (width, height, x, y)` steps), so `none` occurs exactly when the source
loop diverges, which requires dx = dy = 0. -/
def Scanner.dist (s : Scanner) (x y : Nat) (dx dy : Int) : Option Int :=
  distAux s (s.get_bw_3x3 x y) x y dx dy (s.width + s.height + x + y + 2)
    ((x : Int) + dx) ((y : Int) + dy)

/-- The i-coordinate of the `Scanner::dist` ray after `t + 1` steps of
(dx, dy) from (x, y); the loop visits the positions `t = 0, 1, 2, ...`. -/
def rayI (x : Nat) (dx : Int) (t : Nat) : Int := (x : Int) + ((t : Int) + 1) * dx

/-- The j-coordinate of the `Scanner::dist` ray after `t + 1` steps. -/
def rayJ (y : Nat) (dy : Int) (t : Nat) : Int := (y : Int) + ((t : Int) + 1) * dy

/-- The `Scanner::dist` loop stops at visit `t`: the ray has exited or the
sampled color differs. -/
def rayStop (s : Scanner) (start : Nat) (x y : Nat) (dx dy : Int) (t : Nat) : Prop :=
  rayExit s (rayI x dx t) (rayJ y dy t) ∨ rayDiffer s start (rayI x dx t) (rayJ y dy t)

instance (s : Scanner) (start : Nat) (x y : Nat) (dx dy : Int) (t : Nat) :
    Decidable (rayStop s start x y dx dy t) := by
  unfold rayStop; infer_instance

/-- The stop condition of `Scanner::dist` as claim C6 words it: the ray
exits the image, or the visited pixel's `get_bw_3x3` value differs from
`get_bw_3x3 x y`. -/
def raySpecStop (s : Scanner) (x y : Nat) (dx dy : Int) (t : Nat) : Prop :=
  rayExit s (rayI x dx t) (rayJ y dy t) ∨
    s.get_bw_3x3 (rayI x dx t).toNat (rayJ y dy t).toNat ≠ s.get_bw_3x3 x y

/-- The value `Scanner::dist` returns when its loop stops at visit `T`:
-1 on exit, otherwise the Manhattan distance from (x, y). -/
def rayVal (s : Scanner) (x y : Nat) (dx dy : Int) (T : Nat) : Int :=
  if rayExit s (rayI x dx T) (rayJ y dy T) then -1
  else ((rayI x dx T - (x : Int)).natAbs : Int) + ((rayJ y dy T - (y : Int)).natAbs : Int)

/-- The flat index visited at global step `t` of the boustrophedon sweep, as
the spec words it: row `j = t / width` is scanned left-to-right when `j` is
even and right-to-left when `j` is odd. -/
def visitCol (width j i : Nat) : Nat := if j % 2 = 0 then i else width - 1 - i

/-- The flat index visited at global step `t`: position `visitCol` within row
`t / width`. -/
def visitPos (width t : Nat) : Nat :=
  t / width * width + visitCol width (t / width) (t % width)

/-- One step of the spec-order pass: at global step `t`, reset the row state
machine at the start of each row, and process the pixel at `visitPos width t`
of row `t / width`, taking the previous-row branch of the threshold exactly
when a previous row exists (`1 ≤ j`). -/
def specStep (width maxUnit : Nat) (img : Nat → Nat × Nat × Nat) (t : Nat)
    (x : PassState × RowState) : PassState × RowState :=
  let j := t / width
  let rs := if t % width = 0 then rowInit else x.2
  pixelBody width maxUnit img (decide (1 ≤ j)) j (visitPos width t) x.1 rs

/-- Iterate `specStep` for `n` steps starting at global step `t`. -/
def specSteps (width maxUnit : Nat) (img : Nat → Nat × Nat × Nat) :
    Nat → Nat → PassState × RowState → PassState × RowState
  | 0, _, x => x
  | n + 1, t, x => specSteps width maxUnit img n (t + 1) (specStep width maxUnit img t x)

/-- The threshold pass as the spec words it (spec section 4.C): a single
sequence of `height * width` pixel visits in boustrophedon order by explicit
position, with the previous-row average taken whenever the pixel has a row
above it.  Claim C1 states that `Scanner.threshold` is exactly this pass. -/
def thresholdSpec (s : Scanner) (img : Nat → Nat × Nat × Nat) :
    Scanner × List Candidate :=
  let x := specSteps s.width s.max_unit img (s.height * s.width) 0
    (⟨s.data, 128, []⟩, rowInit)
  ({ s with data := x.1.data }, x.1.candidates)

/-- The spec-order pass state after `t` steps from a fresh start (`sum = 128`,
no candidates) on buffer `D`. -/
def passX (w mu : Nat) (img : Nat → Nat × Nat × Nat) (D : List Nat) (t : Nat) :
    PassState × RowState :=
  specSteps w mu img t 0 (⟨D, 128, []⟩, rowInit)

/-- The buffer produced by a full `N`-step pass from buffer `D`. -/
def passR (w mu : Nat) (img : Nat → Nat × Nat × Nat) (D : List Nat) (N : Nat) : List Nat :=
  (passX w mu img D N).1.data

/-- The state of a second pass, run from the buffer the first pass produced. -/
def passY (w mu : Nat) (img : Nat → Nat × Nat × Nat) (D : List Nat) (N t : Nat) :
    PassState × RowState :=
  passX w mu img (passR w mu img D N) t

/-! ### Concrete instances used by witness and counterexample theorems -/

/-- A 10x1 test image: black at flat indices 0, 1, 6, 7, white elsewhere.
Its single row binarizes to the pattern BBWWWWBBWW, whose black-white-black
cross-section (b1 = 2, w1 = 4, b2 = 2) satisfies the ratio constraints and
produces the candidate (3, 0). -/
def img10 : Nat → Nat × Nat × Nat := fun k =>
  if k = 0 ∨ k = 1 ∨ k = 6 ∨ k = 7 then (0, 0, 0) else (255, 255, 255)

/-- A 10x1 scanner for `img10`. -/
def s10 : Scanner := Scanner.new 10 1

/-- An all-white test image. -/
def imgWhite : Nat → Nat × Nat × Nat := fun _ => (255, 255, 255)

/-- A valid marker used to instantiate the abstract decoder. -/
def tcValid : TopCode := ⟨some 55, 1, 0, 0, 0, [0, 0, 0, 0, 0, 0, 0, 0]⟩

/-- A decoder that always succeeds, used to instantiate the abstract
`TopCode::decode` parameter in witnesses. -/
def decodeConst : Scanner → Nat → Nat → TopCode := fun _ _ _ => tcValid

/-- A 10x10 scanner with a zeroed buffer: every `get_bw_3x3` sample reads 0,
so a `dist` ray with dx = dy = 0 from the interior never stops. -/
def s1010 : Scanner := Scanner.new 10 10

/-! ### List access helpers -/

theorem list_getD_set_ne (l : List Nat) (i m v : Nat) (h : i ≠ m) :
    (l.set i v).getD m 0 = l.getD m 0 := by
  simp [List.getD_eq_getElem?_getD, List.getElem?_set, h]

theorem list_getD_set_self (l : List Nat) (i v : Nat) :
    (l.set i v).getD i 0 = if i < l.length then v else l.getD i 0 := by
  by_cases h : i < l.length
  · simp [List.getD_eq_getElem?_getD, List.getElem?_set, h]
  · rw [if_neg h, List.set_eq_of_length_le (Nat.le_of_not_lt h)]

theorem list_getD_default (l : List Nat) (m : Nat) (h : l.length ≤ m) :
    l.getD m 0 = 0 :=
  List.getD_eq_default _ _ h

/-! ### Basic facts about the pixel body -/

/-- `pixelBody` updates the buffer by writing `pixelWord` at index `k`. -/
theorem pixelBody_data (width maxUnit : Nat) (img : Nat → Nat × Nat × Nat)
    (useAbove : Bool) (j k : Nat) (st : PassState) (rs : RowState) :
    (pixelBody width maxUnit img useAbove j k st rs).1.data =
      st.data.set k (pixelWord width img useAbove k st) := rfl

/-- The binarized pixel is 0 or 1. -/
theorem pixelBit_cases (width : Nat) (img : Nat → Nat × Nat × Nat)
    (useAbove : Bool) (k : Nat) (st : PassState) :
    pixelBit width img useAbove k st = 0 ∨ pixelBit width img useAbove k st = 1 := by
  unfold pixelBit
  split
  · exact Or.inl rfl
  · exact Or.inr rfl

/-- The top byte of every word the pass writes is the binarized bit: 0 or 1. -/
theorem pixelWord_shiftRight_le (width : Nat) (img : Nat → Nat × Nat × Nat)
    (useAbove : Bool) (k : Nat) (st : PassState) :
    pixelWord width img useAbove k st >>> 24 ≤ 1 := by
  unfold pixelWord
  have ha01 : (pixelBit width img useAbove k st).toNat ≤ 1 := by
    rcases pixelBit_cases width img useAbove k st with h | h <;> rw [h] <;> decide
  have hr0 : (0 : Int) ≤ pixelSum img k st % 16777216 := Int.emod_nonneg _ (by norm_num)
  have hrlt : pixelSum img k st % 16777216 < 16777216 := Int.emod_lt_of_pos _ (by norm_num)
  have hrn : (pixelSum img k st % 16777216).toNat < 16777216 := by
    rw [Int.toNat_lt hr0]; exact_mod_cast hrlt
  rw [Nat.shiftLeft_eq]
  rw [Nat.mod_eq_of_lt (by norm_num; omega), Nat.shiftRight_eq_div_pow]
  have h224 : (2 : Nat) ^ 24 = 16777216 := by norm_num
  rw [h224]
  omega

/-- Both components of `pixelBody` depend on the incoming state only through
the running sum, the word directly above `k` (and that one only when
`useAbove`), the candidate list, and the row state. -/
theorem pixelBody_congr (width maxUnit : Nat) (img : Nat → Nat × Nat × Nat)
    (useAbove : Bool) (j k : Nat) (st st' : PassState) (rs : RowState)
    (hsum : st.sum = st'.sum)
    (hread : useAbove = true → st.data.getD (k - width) 0 = st'.data.getD (k - width) 0)
    (hc : st.candidates = st'.candidates) :
    (pixelBody width maxUnit img useAbove j k st rs).1.sum =
        (pixelBody width maxUnit img useAbove j k st' rs).1.sum ∧
      (pixelBody width maxUnit img useAbove j k st rs).1.candidates =
        (pixelBody width maxUnit img useAbove j k st' rs).1.candidates ∧
      (pixelBody width maxUnit img useAbove j k st rs).2 =
        (pixelBody width maxUnit img useAbove j k st' rs).2 ∧
      pixelWord width img useAbove k st = pixelWord width img useAbove k st' := by
  have hps : pixelSum img k st = pixelSum img k st' := by
    unfold pixelSum; rw [hsum]
  have hth : pixelThreshold width img useAbove k st = pixelThreshold width img useAbove k st' := by
    unfold pixelThreshold prevRowWord
    cases useAbove with
    | false => rw [hps]; rfl
    | true => rw [hps, hread rfl]
  have hbit : pixelBit width img useAbove k st = pixelBit width img useAbove k st' := by
    unfold pixelBit; rw [hth]
  have hword : pixelWord width img useAbove k st = pixelWord width img useAbove k st' := by
    unfold pixelWord; rw [hbit, hps]
  unfold pixelBody
  rw [hbit, hps, hword, hc]
  exact ⟨rfl, rfl, rfl, rfl⟩

/-- `get_bw_3x3` only returns 0 or 1. -/
theorem get_bw_3x3_le_one (s : Scanner) (x y : Nat) : s.get_bw_3x3 x y ≤ 1 := by
  unfold Scanner.get_bw_3x3
  split
  · omega
  · dsimp only
    split <;> omega

/-! ### Structure of the flat (spec-order) pass -/

/-- One spec-order step writes exactly one buffer word, at `visitPos`. -/
theorem specStep_data (width maxUnit : Nat) (img : Nat → Nat × Nat × Nat)
    (t : Nat) (x : PassState × RowState) :
    (specStep width maxUnit img t x).1.data =
      x.1.data.set (visitPos width t)
        (pixelWord width img (decide (1 ≤ t / width)) (visitPos width t) x.1) := rfl

theorem specSteps_add (width maxUnit : Nat) (img : Nat → Nat × Nat × Nat)
    (a b t : Nat) (x : PassState × RowState) :
    specSteps width maxUnit img (a + b) t x =
      specSteps width maxUnit img b (t + a) (specSteps width maxUnit img a t x) := by
  induction a generalizing t x with
  | zero => rw [Nat.zero_add, Nat.add_zero]; rfl
  | succ a ih =>
    rw [Nat.succ_add]
    show specSteps width maxUnit img (a + b) (t + 1) (specStep width maxUnit img t x) = _
    rw [ih]
    have h : t + 1 + a = t + (a + 1) := by omega
    rw [h]
    rfl

theorem specSteps_succ_back (width maxUnit : Nat) (img : Nat → Nat × Nat × Nat)
    (n t : Nat) (x : PassState × RowState) :
    specSteps width maxUnit img (n + 1) t x =
      specStep width maxUnit img (t + n) (specSteps width maxUnit img n t x) := by
  rw [specSteps_add width maxUnit img n 1 t x]
  rfl

theorem specSteps_length (width maxUnit : Nat) (img : Nat → Nat × Nat × Nat)
    (n t : Nat) (x : PassState × RowState) :
    ((specSteps width maxUnit img n t x).1.data).length = x.1.data.length := by
  induction n generalizing t x with
  | zero => rfl
  | succ n ih =>
    show ((specSteps width maxUnit img n (t + 1) (specStep width maxUnit img t x)).1.data).length = _
    rw [ih, specStep_data, List.length_set]

/-- Buffer cells not visited during a block of spec-order steps keep their
values. -/
theorem specSteps_frame (width maxUnit : Nat) (img : Nat → Nat × Nat × Nat)
    (n t m : Nat) (x : PassState × RowState)
    (h : ∀ i, i < n → visitPos width (t + i) ≠ m) :
    (specSteps width maxUnit img n t x).1.data.getD m 0 = x.1.data.getD m 0 := by
  induction n generalizing t x with
  | zero => rfl
  | succ n ih =>
    show (specSteps width maxUnit img n (t + 1) (specStep width maxUnit img t x)).1.data.getD m 0 = _
    rw [ih (t + 1) (specStep width maxUnit img t x) ?later]
    case later =>
      intro i hi
      have := h (i + 1) (by omega)
      rwa [show t + 1 + i = t + (i + 1) by omega]
    rw [specStep_data]
    apply list_getD_set_ne
    have := h 0 (by omega)
    rwa [Nat.add_zero] at this

/-! ### The boustrophedon visit order -/

theorem visitCol_lt (w j i : Nat) (_hw : 0 < w) (hi : i < w) : visitCol w j i < w := by
  unfold visitCol; split <;> omega

theorem visitCol_invol (w j c : Nat) (hc : c < w) :
    visitCol w j (visitCol w j c) = c := by
  unfold visitCol; split <;> omega

theorem visitPos_div (w t : Nat) (hw : 0 < w) : visitPos w t / w = t / w := by
  unfold visitPos
  have hc : visitCol w (t / w) (t % w) < w := visitCol_lt w _ _ hw (Nat.mod_lt _ hw)
  rw [Nat.mul_comm (t / w) w, Nat.mul_add_div hw, Nat.div_eq_of_lt hc, Nat.add_zero]

theorem visitPos_mod (w t : Nat) (hw : 0 < w) :
    visitPos w t % w = visitCol w (t / w) (t % w) := by
  unfold visitPos
  have hc : visitCol w (t / w) (t % w) < w := visitCol_lt w _ _ hw (Nat.mod_lt _ hw)
  rw [Nat.mul_comm (t / w) w, Nat.mul_add_mod, Nat.mod_eq_of_lt hc]

theorem visitPos_inj (w t1 t2 : Nat) (hw : 0 < w)
    (h : visitPos w t1 = visitPos w t2) : t1 = t2 := by
  have hd : t1 / w = t2 / w := by
    have h1 := visitPos_div w t1 hw
    have h2 := visitPos_div w t2 hw
    rw [← h1, ← h2, h]
  have hm : visitCol w (t1 / w) (t1 % w) = visitCol w (t2 / w) (t2 % w) := by
    have h1 := visitPos_mod w t1 hw
    have h2 := visitPos_mod w t2 hw
    rw [← h1, ← h2, h]
  rw [hd] at hm
  have hb1 : t1 % w < w := Nat.mod_lt _ hw
  have hb2 : t2 % w < w := Nat.mod_lt _ hw
  have hmm : t1 % w = t2 % w := by
    unfold visitCol at hm
    split at hm <;> omega
  have e : w * (t1 / w) + t1 % w = w * (t2 / w) + t2 % w := by rw [hd, hmm]
  rw [Nat.div_add_mod, Nat.div_add_mod] at e
  exact e

/-- `visitPos` is an involution: the step at which cell `m` is visited is
`visitPos w m` itself. -/
theorem visitPos_invol (w m : Nat) (hw : 0 < w) : visitPos w (visitPos w m) = m := by
  have h1 : visitPos w (visitPos w m) =
      visitPos w m / w * w + visitCol w (visitPos w m / w) (visitPos w m % w) := rfl
  rw [h1, visitPos_div w m hw, visitPos_mod w m hw,
    visitCol_invol w _ _ (Nat.mod_lt _ hw)]
  have e := Nat.div_add_mod m w
  rw [Nat.mul_comm] at e
  exact e

/-- The visit step of cell `m` lies in `m`'s own row. -/
theorem visitPos_row (w m : Nat) (hw : 0 < w) :
    m / w * w ≤ visitPos w m ∧ visitPos w m < m / w * w + w := by
  have hc : visitCol w (m / w) (m % w) < w := visitCol_lt w _ _ hw (Nat.mod_lt _ hw)
  unfold visitPos
  omega

/-! ### The source-order pass equals the spec-order pass (claim C1) -/

theorem rowLoopSrc_succ (width maxUnit : Nat) (img : Nat → Nat × Nat × Nat)
    (j n k : Nat) (x : PassState × RowState) :
    rowLoopSrc width maxUnit img j (n + 1) k x =
      rowLoopSrc width maxUnit img j n (if j % 2 = 0 then k + 1 else k - 1)
        (pixelBody width maxUnit img (decide (width ≤ k)) j k x.1 x.2) := rfl

theorem specSteps_succ (width maxUnit : Nat) (img : Nat → Nat × Nat × Nat)
    (n t : Nat) (x : PassState × RowState) :
    specSteps width maxUnit img (n + 1) t x =
      specSteps width maxUnit img n (t + 1) (specStep width maxUnit img t x) := rfl

theorem specStep_eq (width maxUnit : Nat) (img : Nat → Nat × Nat × Nat)
    (t : Nat) (x : PassState × RowState) :
    specStep width maxUnit img t x =
      pixelBody width maxUnit img (decide (1 ≤ t / width)) (t / width) (visitPos width t)
        x.1 (if t % width = 0 then rowInit else x.2) := rfl

/-- Interior of a row: from column `i ≥ 1` on, the source pixel loop (`k`
maintained incrementally, previous-row test `width ≤ k`) coincides with the
flat spec-order steps (position by formula, previous-row test `1 ≤ j`). -/
theorem rowLoop_eq_specSteps (width maxUnit : Nat) (img : Nat → Nat × Nat × Nat) (j : Nat) :
    ∀ (m i : Nat) (x : PassState × RowState), i + m = width → 1 ≤ i →
      rowLoopSrc width maxUnit img j m (j * width + visitCol width j i) x =
        specSteps width maxUnit img m (j * width + i) x := by
  intro m
  induction m with
  | zero => intro i x _ _; rfl
  | succ m ih =>
    intro i x hiw hi
    have hw : 0 < width := by omega
    have hilt : i < width := by omega
    have hdiv : (j * width + i) / width = j := by
      rw [Nat.mul_comm j width, Nat.mul_add_div hw, Nat.div_eq_of_lt hilt, Nat.add_zero]
    have hmod : (j * width + i) % width = i := by
      rw [Nat.mul_comm j width, Nat.mul_add_mod, Nat.mod_eq_of_lt hilt]
    have hc : visitCol width j i < width := visitCol_lt width j i hw hilt
    have hconds : decide (width ≤ j * width + visitCol width j i) = decide (1 ≤ j) := by
      rw [decide_eq_decide]
      constructor
      · intro h
        by_contra hj
        have hj0 : j = 0 := by omega
        rw [hj0, Nat.zero_mul, Nat.zero_add] at h
        rw [hj0] at hc
        omega
      · intro h
        have := Nat.le_mul_of_pos_left width h
        omega
    have hpos : visitPos width (j * width + i) = j * width + visitCol width j i := by
      show (j * width + i) / width * width
          + visitCol width ((j * width + i) / width) ((j * width + i) % width) = _
      rw [hdiv, hmod]
    rw [specSteps_succ, specStep_eq, hdiv, hmod, hpos, if_neg (by omega : ¬ i = 0), ← hconds]
    rw [rowLoopSrc_succ]
    rcases Nat.eq_zero_or_pos m with hm | hm
    · subst hm; rfl
    · have hknext : (if j % 2 = 0 then j * width + visitCol width j i + 1
          else j * width + visitCol width j i - 1) = j * width + visitCol width j (i + 1) := by
        unfold visitCol
        split <;> omega
      rw [hknext, show j * width + i + 1 = j * width + (i + 1) from by omega]
      exact ih (i + 1) _ (by omega) (by omega)

/-- One full row of the source pass equals `width` flat spec-order steps; the
incoming row state on the spec side is irrelevant because the step at a row
boundary resets it. -/
theorem row_eq_specSteps (width maxUnit : Nat) (img : Nat → Nat × Nat × Nat) (j : Nat)
    (hw : 0 < width) (st : PassState) (rs : RowState) :
    rowLoopSrc width maxUnit img j width ((if j % 2 = 0 then 0 else width - 1) + j * width)
        (st, rowInit) =
      specSteps width maxUnit img width (j * width) (st, rs) := by
  obtain ⟨n, rfl⟩ : ∃ n, width = n + 1 := ⟨width - 1, by omega⟩
  have hdiv : j * (n + 1) / (n + 1) = j := by
    rw [Nat.mul_comm, Nat.mul_div_cancel_left _ (by omega : 0 < n + 1)]
  have hmod : j * (n + 1) % (n + 1) = 0 := by
    rw [Nat.mul_comm]; exact Nat.mul_mod_right (n + 1) j
  have hc : visitCol (n + 1) j 0 < n + 1 := visitCol_lt (n + 1) j 0 (by omega) (by omega)
  have hk0 : (if j % 2 = 0 then 0 else n + 1 - 1) + j * (n + 1) =
      j * (n + 1) + visitCol (n + 1) j 0 := by
    unfold visitCol
    split <;> omega
  have hpos : visitPos (n + 1) (j * (n + 1)) = j * (n + 1) + visitCol (n + 1) j 0 := by
    show j * (n + 1) / (n + 1) * (n + 1)
        + visitCol (n + 1) ((j * (n + 1)) / (n + 1)) ((j * (n + 1)) % (n + 1)) = _
    rw [hdiv, hmod]
  have hconds : decide (n + 1 ≤ j * (n + 1) + visitCol (n + 1) j 0) = decide (1 ≤ j) := by
    rw [decide_eq_decide]
    constructor
    · intro h
      by_contra hj
      have hj0 : j = 0 := by omega
      rw [hj0, Nat.zero_mul, Nat.zero_add] at h
      rw [hj0] at hc
      omega
    · intro h
      have := Nat.le_mul_of_pos_left (n + 1) h
      omega
  rw [specSteps_succ, specStep_eq, hdiv, hmod, hpos, if_pos rfl, ← hconds, hk0, rowLoopSrc_succ]
  rcases Nat.eq_zero_or_pos n with hn | hn
  · subst hn; rfl
  · have hknext : (if j % 2 = 0 then j * (n + 1) + visitCol (n + 1) j 0 + 1
        else j * (n + 1) + visitCol (n + 1) j 0 - 1) =
        j * (n + 1) + visitCol (n + 1) j 1 := by
      unfold visitCol
      split <;> omega
    rw [hknext, show j * (n + 1) + 1 = j * (n + 1) + 1 from rfl]
    exact rowLoop_eq_specSteps (n + 1) maxUnit img j n 1 _ (by omega) (by omega)

theorem rowsLoopSrc_width_zero (maxUnit : Nat) (img : Nat → Nat × Nat × Nat) :
    ∀ (n j : Nat) (st : PassState), rowsLoopSrc 0 maxUnit img n j st = st := by
  intro n
  induction n with
  | zero => intro j st; rfl
  | succ n ih => intro j st; exact ih (j + 1) st

/-- All rows of the source pass equal the corresponding block of flat
spec-order steps. -/
theorem rows_eq_specSteps (width maxUnit : Nat) (img : Nat → Nat × Nat × Nat)
    (hw : 0 < width) :
    ∀ (n j : Nat) (st : PassState) (rs : RowState),
      rowsLoopSrc width maxUnit img n j st =
        (specSteps width maxUnit img (n * width) (j * width) (st, rs)).1 := by
  intro n
  induction n with
  | zero => intro j st rs; rw [Nat.zero_mul]; rfl
  | succ n ih =>
    intro j st rs
    rw [show (n + 1) * width = width + n * width from by ring, specSteps_add,
      show j * width + width = (j + 1) * width from by ring,
      ← row_eq_specSteps width maxUnit img j hw st rs]
    rw [show rowsLoopSrc width maxUnit img (n + 1) j st =
        rowsLoopSrc width maxUnit img n (j + 1)
          (rowLoopSrc width maxUnit img j width
            ((if j % 2 = 0 then 0 else width - 1) + j * width) (st, rowInit)).1 from rfl]
    rw [ih (j + 1)
      (rowLoopSrc width maxUnit img j width
        ((if j % 2 = 0 then 0 else width - 1) + j * width) (st, rowInit)).1
      (rowLoopSrc width maxUnit img j width
        ((if j % 2 = 0 then 0 else width - 1) + j * width) (st, rowInit)).2]

/-- The source threshold pass is exactly the spec-order threshold pass. -/
theorem threshold_eq_thresholdSpec (s : Scanner) (img : Nat → Nat × Nat × Nat) :
    s.threshold img = thresholdSpec s img := by
  rcases Nat.eq_zero_or_pos s.width with hw | hw
  · unfold Scanner.threshold thresholdSpec
    rw [hw, Nat.mul_zero, rowsLoopSrc_width_zero]
    rfl
  · unfold Scanner.threshold thresholdSpec
    rw [rows_eq_specSteps s.width s.max_unit img hw s.height 0 ⟨s.data, 128, []⟩ rowInit,
      Nat.zero_mul]

/-! ### The fresh-start pass: one step, lengths, and last-write stability -/

theorem passX_succ (w mu : Nat) (img : Nat → Nat × Nat × Nat) (D : List Nat) (t : Nat) :
    passX w mu img D (t + 1) = specStep w mu img t (passX w mu img D t) := by
  unfold passX
  rw [specSteps_succ_back, Nat.zero_add]

theorem passX_length (w mu : Nat) (img : Nat → Nat × Nat × Nat) (D : List Nat) (t : Nat) :
    (passX w mu img D t).1.data.length = D.length := by
  unfold passX
  rw [specSteps_length]

/-- The final buffer agrees at `visitPos w t` with the buffer right after the
visit at step `t`: later steps visit other cells. -/
theorem passX_final_at (w mu : Nat) (img : Nat → Nat × Nat × Nat) (D : List Nat)
    (N : Nat) (hw : 0 < w) (t : Nat) (ht : t < N) :
    (passR w mu img D N).getD (visitPos w t) 0 =
      (specStep w mu img t (passX w mu img D t)).1.data.getD (visitPos w t) 0 := by
  unfold passR
  have hsplit : passX w mu img D N =
      specSteps w mu img (N - (t + 1)) (t + 1) (passX w mu img D (t + 1)) := by
    unfold passX
    conv_lhs => rw [show N = (t + 1) + (N - (t + 1)) from by omega]
    rw [specSteps_add, Nat.zero_add]
  rw [hsplit, passX_succ]
  exact specSteps_frame w mu img (N - (t + 1)) (t + 1) (visitPos w t) _
    (fun i hi h => by have := visitPos_inj w _ _ hw h; omega)

/-- C7: after every threshold pass, for every index `m` in `[0, width*height)`
the top byte `buffer[m] >>> 24` of the packed buffer word is exactly 0 or 1.
(Proved for every image and every starting buffer, in particular for images
whose decoded channels lie in [0, 255].) -/
theorem c7_threshold_top_byte_binary (s : Scanner) (img : Nat → Nat × Nat × Nat) (m : Nat)
    (hm : m < s.width * s.height) :
    ((s.threshold img).1.data.getD m 0) >>> 24 = 0 ∨
      ((s.threshold img).1.data.getD m 0) >>> 24 = 1 := by
  have hw : 0 < s.width := by
    rcases Nat.eq_zero_or_pos s.width with h0 | h
    · rw [h0, Nat.zero_mul] at hm; omega
    · exact h
  have hdata : (s.threshold img).1.data =
      passR s.width s.max_unit img s.data (s.height * s.width) := by
    rw [threshold_eq_thresholdSpec]; rfl
  rw [hdata]
  have hrow : m / s.width < s.height := by
    rw [Nat.div_lt_iff_lt_mul hw]
    rw [Nat.mul_comm] at hm
    exact hm
  have hvrow := visitPos_row s.width m hw
  have htN : visitPos s.width m < s.height * s.width := by
    have h1 : m / s.width * s.width + s.width ≤ s.height * s.width := by
      have h2 : m / s.width + 1 ≤ s.height := hrow
      calc m / s.width * s.width + s.width = (m / s.width + 1) * s.width := by ring
        _ ≤ s.height * s.width := Nat.mul_le_mul_right _ h2
    omega
  have hfat := passX_final_at s.width s.max_unit img s.data (s.height * s.width) hw
    (visitPos s.width m) htN
  rw [visitPos_invol s.width m hw] at hfat
  rw [hfat, specStep_data, visitPos_invol s.width m hw, list_getD_set_self]
  split
  · have := pixelWord_shiftRight_le s.width img
      (decide (1 ≤ visitPos s.width m / s.width)) m
      (passX s.width s.max_unit img s.data (visitPos s.width m)).1
    omega
  · rename_i hlen
    rw [list_getD_default _ _ (by rw [passX_length] at hlen ⊢; omega)]
    left
    rfl

/-- C7 witness: the top-left cell of a 2x2 all-white scan has a binary top
byte. -/
theorem c7_witness :
    ((Scanner.new 2 2).threshold imgWhite).1.data.getD 0 0 >>> 24 = 0 ∨
      ((Scanner.new 2 2).threshold imgWhite).1.data.getD 0 0 >>> 24 = 1 :=
  c7_threshold_top_byte_binary (Scanner.new 2 2) imgWhite 0 (by decide)

/-- C1: the threshold pass visits row `j` left-to-right when `j` is even and
right-to-left when `j` is odd, updates the running sum (initially 128) as
`sum += a - sum/32` at each visited pixel of intensity `a = (R+G+B)/3`, takes
the threshold `(sum + low-24-bits of the word directly above) / (2*32)`
whenever the pixel has a row above it (`1 ≤ j`) and `sum / 32` otherwise, and
binarizes to 0 iff `a < threshold * 0.975`: the source pass equals the
spec-order pass `thresholdSpec`, which visits `visitPos` in exactly that
order and applies exactly those per-pixel rules (`pixelSum`,
`pixelThreshold`, `pixelBit`). -/
theorem c1_threshold_is_boustrophedon_spec_pass (s : Scanner)
    (img : Nat → Nat × Nat × Nat) :
    s.threshold img = thresholdSpec s img :=
  threshold_eq_thresholdSpec s img

/-- C2: in state B2, reading a white pixel (`a = 1`) appends a candidate iff
`b1 ≥ 2`, `b2 ≥ 2`, `b1 ≤ max_unit`, `b2 ≤ max_unit`, `w1 ≤ 2*max_unit`,
`|b1+b2-w1| ≤ b1+b2`, `|b1+b2-w1| ≤ w1`, `|b1-b2| ≤ b1` and `|b1-b2| ≤ b2`;
the appended candidate is `(dk' mod width, j)` with `dk = 1 + b2 + (w1 >> 1)`
and `dk' = k - dk` on even rows, `k + dk` on odd rows; afterwards the
counters shift to `b1 = b2`, `w1 = 1`, `b2 = 0` and the state becomes W2. -/
theorem c2_state_machine_b2_on_white (width maxUnit j k : Nat) (b1 b2 w1 : Int)
    (cands : List Candidate) :
    unitStep width maxUnit j k 1 ⟨.BlackRegionSecond, b1, b2, w1⟩ cands =
      (⟨.WhiteRegionSecond, b2, 0, 1⟩,
        if 2 ≤ b1 ∧ 2 ≤ b2 ∧ b1 ≤ (maxUnit : Int) ∧ b2 ≤ (maxUnit : Int) ∧
            w1 ≤ (maxUnit : Int) + (maxUnit : Int) ∧
            |b1 + b2 - w1| ≤ b1 + b2 ∧ |b1 + b2 - w1| ≤ w1 ∧
            |b1 - b2| ≤ b1 ∧ |b1 - b2| ≤ b2 then
          cands ++ [⟨(if j % 2 = 0 then k - (1 + b2.toNat + (w1.toNat >>> 1))
              else k + (1 + b2.toNat + (w1.toNat >>> 1))) % width, j⟩]
        else cands) := rfl

/-- C10: `scan` leaves the scanner's `width`, `height` and `max_unit` fields
unchanged; the pixel buffer is the only mutated state. -/
theorem c10_scan_preserves_config (s : Scanner) (img : Nat → Nat × Nat × Nat)
    (decode : Scanner → Nat → Nat → TopCode) :
    (s.scan img decode).1.width = s.width ∧
      (s.scan img decode).1.height = s.height ∧
      (s.scan img decode).1.max_unit = s.max_unit :=
  ⟨rfl, rfl, rfl⟩

/-- C5 counterexample: `set_max_code_diameter 0` is not rejected — the call
completes and sets `max_unit` to 0 (the parameter is a `usize`, so there is
no negative or error case in the source). -/
theorem c5_counterexample_zero_not_rejected :
    ((Scanner.new 4 4).set_max_code_diameter 0).max_unit = 0 := rfl

/-- C5 amended: for every `diameter ≤ 2^53` (the range on which the source's
`f64` arithmetic is exact), `set_max_code_diameter` updates `max_unit` to
`⌈diameter / 8⌉`, accepting every value including 0 — nothing is rejected. -/
theorem c5_amended_ceiling_update (s : Scanner) (diameter : Nat)
    (_h : diameter ≤ 2 ^ 53) :
    diameter ≤ 8 * (s.set_max_code_diameter diameter).max_unit ∧
      8 * (s.set_max_code_diameter diameter).max_unit < diameter + 8 := by
  constructor
  · show diameter ≤ 8 * ((diameter + 7) / 8)
    omega
  · show 8 * ((diameter + 7) / 8) < diameter + 8
    omega

/-- C5 witness: diameter 16 is within the exact range and yields
`max_unit = 2`. -/
theorem c5_amended_witness :
    (16 : Nat) ≤ 2 ^ 53 ∧
      (16 ≤ 8 * ((Scanner.new 4 4).set_max_code_diameter 16).max_unit ∧
        8 * ((Scanner.new 4 4).set_max_code_diameter 16).max_unit < 16 + 8) :=
  ⟨by norm_num, c5_amended_ceiling_update (Scanner.new 4 4) 16 (by norm_num)⟩

/-! ### Re-running the pass (claim C8) -/

theorem passY_succ (w mu : Nat) (img : Nat → Nat × Nat × Nat) (D : List Nat) (N t : Nat) :
    passY w mu img D N (t + 1) = specStep w mu img t (passY w mu img D N t) := by
  unfold passY
  exact passX_succ w mu img _ t

theorem passR_length (w mu : Nat) (img : Nat → Nat × Nat × Nat) (D : List Nat) (N : Nat) :
    (passR w mu img D N).length = D.length := by
  unfold passR
  exact passX_length w mu img D N

theorem passY_length (w mu : Nat) (img : Nat → Nat × Nat × Nat) (D : List Nat) (N t : Nat) :
    (passY w mu img D N t).1.data.length = D.length := by
  unfold passY
  rw [passX_length, passR_length]

/-- Bisimulation between a pass from buffer `D` and the pass re-run from the
resulting buffer: the sums, row states and candidates coincide at every step;
the second run's buffer never changes (it always equals the first run's final
buffer), and the first run agrees with its own final buffer on every cell
already visited. -/
theorem spec_run_bisim (w mu : Nat) (img : Nat → Nat × Nat × Nat) (D : List Nat)
    (N : Nat) (hw : 0 < w) :
    ∀ t, t ≤ N →
      (passX w mu img D t).1.sum = (passY w mu img D N t).1.sum ∧
      (passX w mu img D t).2 = (passY w mu img D N t).2 ∧
      (passX w mu img D t).1.candidates = (passY w mu img D N t).1.candidates ∧
      (∀ m, (passY w mu img D N t).1.data.getD m 0 = (passR w mu img D N).getD m 0) ∧
      (∀ t', t' < t →
        (passX w mu img D t).1.data.getD (visitPos w t') 0 =
          (passR w mu img D N).getD (visitPos w t') 0) := by
  intro t
  induction t with
  | zero =>
    intro _
    exact ⟨rfl, rfl, rfl, fun m => rfl, fun t' ht' => absurd ht' (by omega)⟩
  | succ t ih =>
    intro htN
    obtain ⟨hsum, hrs, hcands, hY, hX⟩ := ih (by omega)
    have ht : t < N := by omega
    have hfat := passX_final_at w mu img D N hw t ht
    have hreads : decide (1 ≤ t / w) = true →
        (passX w mu img D t).1.data.getD (visitPos w t - w) 0 =
          (passY w mu img D N t).1.data.getD (visitPos w t - w) 0 := by
      intro hu
      have hj : 1 ≤ t / w := of_decide_eq_true hu
      have hkrow := visitPos_row w t hw
      have hjw_le : t / w * w ≤ t := Nat.div_mul_le_self t w
      have ht0row := visitPos_row w (visitPos w t - w) hw
      have hwle : w ≤ t / w * w := Nat.le_mul_of_pos_left w hj
      have hlt : (visitPos w t - w) / w < t / w := by
        rw [Nat.div_lt_iff_lt_mul hw]
        omega
      have ht0 : visitPos w (visitPos w t - w) < t := by
        have h1 : (visitPos w t - w) / w * w + w ≤ t / w * w := by
          calc (visitPos w t - w) / w * w + w = ((visitPos w t - w) / w + 1) * w := by ring
            _ ≤ t / w * w := Nat.mul_le_mul_right _ (by omega)
        omega
      have hinv : visitPos w (visitPos w (visitPos w t - w)) = visitPos w t - w :=
        visitPos_invol w _ hw
      have e1 := hX (visitPos w (visitPos w t - w)) ht0
      rw [hinv] at e1
      rw [e1, hY (visitPos w t - w)]
    obtain ⟨hs', hc', hr', hw'⟩ := pixelBody_congr w mu img (decide (1 ≤ t / w)) (t / w)
      (visitPos w t) (passX w mu img D t).1 (passY w mu img D N t).1
      (if t % w = 0 then rowInit else (passY w mu img D N t).2) hsum hreads hcands
    rw [passX_succ, passY_succ, specStep_eq, specStep_eq, hrs]
    refine ⟨hs', hr', hc', ?_, ?_⟩
    · intro m
      rw [pixelBody_data]
      by_cases hmk : m = visitPos w t
      · subst hmk
        rw [list_getD_set_self]
        split
        · rename_i hlen
          rw [passY_length] at hlen
          have hlenX : visitPos w t < (passX w mu img D t).1.data.length := by
            rw [passX_length]
            exact hlen
          rw [specStep_data, list_getD_set_self, if_pos hlenX] at hfat
          rw [hfat]
          exact hw'.symm
        · exact hY (visitPos w t)
      · rw [list_getD_set_ne _ _ _ _ (fun h => hmk h.symm)]
        exact hY m
    · intro t' ht'
      rw [pixelBody_data]
      rcases Nat.lt_or_ge t' t with hlt | hge
      · rw [list_getD_set_ne _ _ _ _ (fun h => by have := visitPos_inj w _ _ hw h; omega)]
        exact hX t' hlt
      · have hteq : t' = t := by omega
        subst hteq
        rw [specStep_data] at hfat
        exact hfat.symm

/-- A zero-width scan does nothing. -/
theorem threshold_width_zero (s : Scanner) (img : Nat → Nat × Nat × Nat)
    (h : s.width = 0) : s.threshold img = (s, []) := by
  have hz : rowsLoopSrc s.width s.max_unit img s.height 0 ⟨s.data, 128, []⟩ =
      ⟨s.data, 128, []⟩ := by
    rw [h]
    exact rowsLoopSrc_width_zero s.max_unit img s.height 0 ⟨s.data, 128, []⟩
  unfold Scanner.threshold
  rw [hz]

/-- Re-running the threshold pass on its own output changes nothing. -/
theorem threshold_threshold (s : Scanner) (img : Nat → Nat × Nat × Nat) :
    ((s.threshold img).1).threshold img = s.threshold img := by
  rcases Nat.eq_zero_or_pos s.width with h0 | hw
  · rw [threshold_width_zero s img h0]
    exact threshold_width_zero s img h0
  · obtain ⟨hsum, hrs, hcands, hY, hX⟩ :=
      spec_run_bisim s.width s.max_unit img s.data (s.height * s.width) hw
        (s.height * s.width) le_rfl
    have hdata : (passY s.width s.max_unit img s.data (s.height * s.width)
        (s.height * s.width)).1.data =
        passR s.width s.max_unit img s.data (s.height * s.width) := by
      apply List.ext_getElem
      · rw [passY_length, passR_length]
      · intro n h1 h2
        have h3 := hY n
        rwa [List.getD_eq_getElem _ 0 h1, List.getD_eq_getElem _ 0 h2] at h3
    have hthr1 : s.threshold img =
        ({ s with data := passR s.width s.max_unit img s.data (s.height * s.width) },
          (passX s.width s.max_unit img s.data (s.height * s.width)).1.candidates) := by
      rw [threshold_eq_thresholdSpec]
      rfl
    have hthr2 : ({ s with data := passR s.width s.max_unit img s.data (s.height * s.width) } : Scanner).threshold img =
        ({ s with data := passR s.width s.max_unit img s.data (s.height * s.width) },
          (passX s.width s.max_unit img s.data (s.height * s.width)).1.candidates) := by
      rw [threshold_eq_thresholdSpec]
      show ({ s with data := (passY s.width s.max_unit img s.data (s.height * s.width) (s.height * s.width)).1.data },
        (passY s.width s.max_unit img s.data (s.height * s.width) (s.height * s.width)).1.candidates) = _
      rw [hdata, ← hcands]
    rw [hthr1]
    show ({ s with data := passR s.width s.max_unit img s.data (s.height * s.width) } : Scanner).threshold img = _
    rw [hthr2]

/-- C8: running `scan` twice in succession on the same scanner instance and
image yields an identical return value and an identical internal buffer: the
second run's output is equal, component by component, to the first run's.
This holds for every (pure) `decode_rgb` image function and every marker
decoder. -/
theorem c8_scan_rerun_identical (s : Scanner) (img : Nat → Nat × Nat × Nat)
    (decode : Scanner → Nat → Nat → TopCode) :
    ((s.scan img decode).1).scan img decode = s.scan img decode := by
  show ((s.threshold img).1).scan img decode = _
  unfold Scanner.scan
  rw [threshold_threshold]

/-! ### Only valid markers are returned (claim C3) -/

theorem findStep_valid (s : Scanner) (decode : Scanner → Nat → Nat → TopCode)
    (spots : List TopCode) (c : Candidate)
    (hacc : ∀ t ∈ spots, t.is_valid = true) :
    ∀ t ∈ findStep s decode spots c, t.is_valid = true := by
  intro t ht
  unfold findStep at ht
  split at ht
  · exact hacc t ht
  · dsimp only at ht
    split at ht
    · rcases List.mem_append.mp ht with h | h
      · exact hacc t h
      · rename_i hv
        rw [List.mem_singleton.mp h]
        exact hv
    · exact hacc t ht

theorem find_codes_valid_aux (s : Scanner) (decode : Scanner → Nat → Nat → TopCode) :
    ∀ (cs : List Candidate) (acc : List TopCode),
      (∀ t ∈ acc, t.is_valid = true) →
      ∀ t ∈ cs.foldl (findStep s decode) acc, t.is_valid = true := by
  intro cs
  induction cs with
  | nil =>
    intro acc hacc t ht
    rw [List.foldl_nil] at ht
    exact hacc t ht
  | cons c cs ih =>
    intro acc hacc t ht
    rw [List.foldl_cons] at ht
    exact ih (findStep s decode acc c) (findStep_valid s decode acc c hacc) t ht

/-- C3: every TopCode in the list returned by `scan` is valid (`is_valid`
holds, i.e. its code is present), for every input image, every pixel decoder
and every marker decoder. -/
theorem c3_scan_returns_only_valid (s : Scanner) (img : Nat → Nat × Nat × Nat)
    (decode : Scanner → Nat → Nat → TopCode) (t : TopCode)
    (ht : t ∈ (s.scan img decode).2) : t.is_valid = true :=
  find_codes_valid_aux (s.threshold img).1 decode (s.threshold img).2 []
    (fun t' ht' => absurd ht' (List.not_mem_nil t')) t ht

/-- C3 witness: scanning the 10x1 test image produces the candidate (3, 0),
which the constant decoder turns into the valid marker `tcValid`. -/
theorem c3_witness : tcValid.is_valid = true :=
  c3_scan_returns_only_valid s10 img10 decodeConst tcValid
    (by rw [show (s10.scan img10 decodeConst).2 = [tcValid] from rfl]
        exact List.mem_singleton_self _)

/-! ### The directed ray distance (claims C6 and C9) -/

theorem rayI_succ (x : Nat) (dx : Int) (t : Nat) :
    rayI x dx (t + 1) = rayI x dx t + dx := by
  unfold rayI
  push_cast
  ring

theorem rayJ_succ (y : Nat) (dy : Int) (t : Nat) :
    rayJ y dy (t + 1) = rayJ y dy t + dy := by
  unfold rayJ
  push_cast
  ring

/-- With enough fuel, the loop returns the value determined by the first
stopping visit `T`: -1 when the ray exits there, the Manhattan distance when
the color differs there. -/
theorem distAux_stops (s : Scanner) (start : Nat) (x y : Nat) (dx dy : Int) :
    ∀ (fuel t0 T : Nat), t0 ≤ T → T - t0 < fuel →
      (∀ u, t0 ≤ u → u < T → ¬ rayStop s start x y dx dy u) →
      rayStop s start x y dx dy T →
      distAux s start x y dx dy fuel (rayI x dx t0) (rayJ y dy t0) =
        some (rayVal s x y dx dy T) := by
  intro fuel
  induction fuel with
  | zero => intro t0 T h1 h2 _ _; omega
  | succ fuel ih =>
    intro t0 T h1 h2 hmin hstop
    show (if rayExit s (rayI x dx t0) (rayJ y dy t0) then some (-1)
      else if rayDiffer s start (rayI x dx t0) (rayJ y dy t0) then
        some (((rayI x dx t0 - (x : Int)).natAbs : Int) +
          ((rayJ y dy t0 - (y : Int)).natAbs : Int))
      else distAux s start x y dx dy fuel (rayI x dx t0 + dx) (rayJ y dy t0 + dy)) = _
    by_cases hex : rayExit s (rayI x dx t0) (rayJ y dy t0)
    · rw [if_pos hex]
      have hT0 : T = t0 := by
        by_contra hne
        exact hmin t0 le_rfl (by omega) (Or.inl hex)
      subst hT0
      unfold rayVal
      rw [if_pos hex]
    · rw [if_neg hex]
      by_cases hdf : rayDiffer s start (rayI x dx t0) (rayJ y dy t0)
      · rw [if_pos hdf]
        have hT0 : T = t0 := by
          by_contra hne
          exact hmin t0 le_rfl (by omega) (Or.inr hdf)
        subst hT0
        unfold rayVal
        rw [if_neg hex]
      · rw [if_neg hdf]
        have hne : t0 ≠ T := by
          intro he
          subst he
          rcases hstop with h | h
          · exact hex h
          · exact hdf h
        rw [show rayI x dx t0 + dx = rayI x dx (t0 + 1) from (rayI_succ x dx t0).symm,
          show rayJ y dy t0 + dy = rayJ y dy (t0 + 1) from (rayJ_succ y dy t0).symm]
        exact ih (t0 + 1) T (by omega) (by omega)
          (fun u hu1 hu2 => hmin u (by omega) hu2) hstop

/-- If no visit from `t0` on ever stops the loop, no fuel makes it return. -/
theorem distAux_none (s : Scanner) (start : Nat) (x y : Nat) (dx dy : Int) :
    ∀ (fuel t0 : Nat), (∀ u, t0 ≤ u → ¬ rayStop s start x y dx dy u) →
      distAux s start x y dx dy fuel (rayI x dx t0) (rayJ y dy t0) = none := by
  intro fuel
  induction fuel with
  | zero => intro t0 _; rfl
  | succ fuel ih =>
    intro t0 hnone
    show (if rayExit s (rayI x dx t0) (rayJ y dy t0) then some (-1)
      else if rayDiffer s start (rayI x dx t0) (rayJ y dy t0) then
        some (((rayI x dx t0 - (x : Int)).natAbs : Int) +
          ((rayJ y dy t0 - (y : Int)).natAbs : Int))
      else distAux s start x y dx dy fuel (rayI x dx t0 + dx) (rayJ y dy t0 + dy)) = none
    rw [if_neg (fun h => hnone t0 le_rfl (Or.inl h)),
      if_neg (fun h => hnone t0 le_rfl (Or.inr h)),
      show rayI x dx t0 + dx = rayI x dx (t0 + 1) from (rayI_succ x dx t0).symm,
      show rayJ y dy t0 + dy = rayJ y dy (t0 + 1) from (rayJ_succ y dy t0).symm]
    exact ih (t0 + 1) (fun u hu => hnone u (by omega))

/-- A ray with a nonzero step reaches the border test within a bounded number
of visits. -/
theorem ray_escapes (s : Scanner) (start : Nat) (x y : Nat) (dx dy : Int)
    (hd : dx ≠ 0 ∨ dy ≠ 0) :
    ∃ T, T ≤ s.width + s.height + x + y + 1 ∧ rayStop s start x y dx dy T := by
  rcases hd with hdx | hdy
  · rcases lt_or_gt_of_ne hdx with hneg | hpos
    · refine ⟨x, by omega, Or.inl ?_⟩
      unfold rayExit
      left
      have h1 : ((x : Int) + 1) * dx ≤ ((x : Int) + 1) * (-1) :=
        mul_le_mul_of_nonneg_left (by omega) (by positivity)
      unfold rayI
      omega
    · refine ⟨s.width, by omega, Or.inl ?_⟩
      unfold rayExit
      right; left
      have h1 : ((s.width : Int) + 1) * 1 ≤ ((s.width : Int) + 1) * dx :=
        mul_le_mul_of_nonneg_left (by omega) (by positivity)
      unfold rayI
      omega
  · rcases lt_or_gt_of_ne hdy with hneg | hpos
    · refine ⟨y, by omega, Or.inl ?_⟩
      unfold rayExit
      right; right; left
      have h1 : ((y : Int) + 1) * dy ≤ ((y : Int) + 1) * (-1) :=
        mul_le_mul_of_nonneg_left (by omega) (by positivity)
      unfold rayJ
      omega
    · refine ⟨s.height, by omega, Or.inl ?_⟩
      unfold rayExit
      right; right; right
      have h1 : ((s.height : Int) + 1) * 1 ≤ ((s.height : Int) + 1) * dy :=
        mul_le_mul_of_nonneg_left (by omega) (by positivity)
      unfold rayJ
      omega

/-- For a nonzero step, `dist` returns the value of the first stopping
visit. -/
theorem dist_finds (s : Scanner) (x y : Nat) (dx dy : Int)
    (hd : dx ≠ 0 ∨ dy ≠ 0) :
    ∃ T, (∀ u, u < T → ¬ rayStop s (s.get_bw_3x3 x y) x y dx dy u) ∧
      rayStop s (s.get_bw_3x3 x y) x y dx dy T ∧
      s.dist x y dx dy = some (rayVal s x y dx dy T) := by
  obtain ⟨T0, hT0le, hT0⟩ := ray_escapes s (s.get_bw_3x3 x y) x y dx dy hd
  have hex : ∃ T, rayStop s (s.get_bw_3x3 x y) x y dx dy T := ⟨T0, hT0⟩
  have hfind_le : Nat.find hex ≤ T0 := Nat.find_le hT0
  refine ⟨Nat.find hex, fun u hu => Nat.find_min hex hu, Nat.find_spec hex, ?_⟩
  unfold Scanner.dist
  rw [show (x : Int) + dx = rayI x dx 0 from by unfold rayI; push_cast; ring,
    show (y : Int) + dy = rayJ y dy 0 from by unfold rayJ; push_cast; ring]
  exact distAux_stops s (s.get_bw_3x3 x y) x y dx dy (s.width + s.height + x + y + 2) 0
    (Nat.find hex) (by omega) (by omega) (fun u _ hu => Nat.find_min hex hu)
    (Nat.find_spec hex)

/-- The stop condition of the source (`start + sample = 1`) is equivalent to
the claim's wording (the sampled value differs from the start value), because
`get_bw_3x3` only takes the values 0 and 1. -/
theorem rayStop_iff_spec (s : Scanner) (x y : Nat) (dx dy : Int) (t : Nat) :
    rayStop s (s.get_bw_3x3 x y) x y dx dy t ↔ raySpecStop s x y dx dy t := by
  unfold rayStop raySpecStop rayDiffer
  have h1 := get_bw_3x3_le_one s x y
  have h2 := get_bw_3x3_le_one s (rayI x dx t).toNat (rayJ y dy t).toNat
  constructor
  · rintro (h | h)
    · exact Or.inl h
    · right; omega
  · rintro (h | h)
    · exact Or.inl h
    · right; omega

/-- C6: for a nonzero step vector, `dist x y dx dy` starts at (x+dx, y+dy),
steps by (dx, dy), and returns the Manhattan distance `|i-x| + |j-y|` to the
first visited pixel whose `get_bw_3x3` value differs from
`get_bw_3x3 x y` — unless the ray exits the image first, in which case it
returns -1; the exit check is `i ≤ 1 ∨ i ≥ width - 1 ∨ j ≤ 1 ∨ j ≥ height`
(`rayExit`, with the asymmetric height bound preserved verbatim). -/
theorem c6_dist_first_change (s : Scanner) (x y : Nat) (dx dy : Int)
    (hd : dx ≠ 0 ∨ dy ≠ 0) :
    ∃ T, (∀ u, u < T → ¬ raySpecStop s x y dx dy u) ∧ raySpecStop s x y dx dy T ∧
      s.dist x y dx dy = some (if rayExit s (rayI x dx T) (rayJ y dy T) then -1
        else ((rayI x dx T - (x : Int)).natAbs : Int) +
          ((rayJ y dy T - (y : Int)).natAbs : Int)) := by
  obtain ⟨T, hmin, hstop, hval⟩ := dist_finds s x y dx dy hd
  exact ⟨T, fun u hu h => hmin u hu ((rayStop_iff_spec s x y dx dy u).mpr h),
    (rayStop_iff_spec s x y dx dy T).mp hstop, hval⟩

/-- C6 witness: on a zeroed 10x10 scanner, the ray from (5, 5) with step
(1, 0) runs off the image and `dist` returns -1. -/
theorem c6_witness :
    ∃ T, (∀ u, u < T → ¬ raySpecStop s1010 5 5 1 0 u) ∧ raySpecStop s1010 5 5 1 0 T ∧
      s1010.dist 5 5 1 0 = some (if rayExit s1010 (rayI 5 1 T) (rayJ 5 0 T) then -1
        else ((rayI 5 1 T - (5 : Int)).natAbs : Int) +
          ((rayJ 5 0 T - (5 : Int)).natAbs : Int)) :=
  c6_dist_first_change s1010 5 5 1 0 (Or.inl (by decide))

/-- C9: `dist` terminates (returns a value) whenever dx ≠ 0 or dy ≠ 0; and
termination is not guaranteed when dx = dy = 0: on a zeroed 10x10 scanner,
the loop started at the interior point (5, 5) with step (0, 0) never returns,
whatever the fuel. -/
theorem c9_dist_termination :
    (∀ (s : Scanner) (x y : Nat) (dx dy : Int), dx ≠ 0 ∨ dy ≠ 0 →
        (s.dist x y dx dy).isSome = true) ∧
      (∀ fuel : Nat,
        distAux s1010 (s1010.get_bw_3x3 5 5) 5 5 0 0 fuel 5 5 = none) := by
  constructor
  · intro s x y dx dy hd
    obtain ⟨T, _, _, hval⟩ := dist_finds s x y dx dy hd
    rw [hval]
    rfl
  · intro fuel
    have h : ∀ u, (0 : Nat) ≤ u → ¬ rayStop s1010 (s1010.get_bw_3x3 5 5) 5 5 0 0 u := by
      intro u _
      unfold rayStop rayI rayJ
      simp only [mul_zero, add_zero]
      decide
    have h2 := distAux_none s1010 (s1010.get_bw_3x3 5 5) 5 5 0 0 fuel 0 h
    rw [show rayI 5 0 0 = (5 : Int) from by unfold rayI; norm_num,
      show rayJ 5 0 0 = (5 : Int) from by unfold rayJ; norm_num] at h2
    exact h2

/-- C9 witness: a concrete nonzero-step call on which the first part of the
termination theorem applies. -/
theorem c9_witness : ((s1010.dist 5 5 1 0).isSome = true) :=
  c9_dist_termination.1 s1010 5 5 1 0 (Or.inl (by decide))
